import Mathlib

/-!
A shallow embedding of `src/drawille.rs` (the drawille terminal-graphics
library): a sparse Braille-pixel canvas and a turtle-graphics layer on top
of it, together with theorems checking the natural-language specification
against this embedding.

Modelling conventions:
* Rust `uint` values (coordinates, declared dimensions) are modelled as `ℕ`;
  where the source can exercise 64-bit wraparound on in-domain inputs — the
  `r + 1` iteration bound and the `i * diff` products and direction
  multiplications of `line_vec` — the arithmetic is reduced modulo `2^64`
  explicitly (`wadd` / `wmul` below).
* The cell masks have Rust type `int` (64-bit).  Every mask ever stored is a
  non-negative value below 256 (proved below), so masks are modelled as the
  natural number giving the 64-bit two's-complement bit pattern; the bitwise
  complement `!b` of the Rust source is `2^64 - 1 - b` on patterns, which is
  exact for every 64-bit value.
* `HashMap<(uint, uint), int>` is modelled as an association list with
  duplicate-free keys by construction (`modifyCell` below is
  `find_or_insert(k, 0)` followed by an in-place update of the entry).
  `rows` only queries the map and takes maxima over its keys, so the
  unspecified hash-map iteration order is irrelevant.
* `f32` turtle state is modelled as `ℚ`; `f32::round` (round half away from
  zero) is `roundf` below.  No claim settled here depends on float rounding
  error, only on the data flow of the turtle methods.
* `std::char::from_u32` is modelled by `charFromU32`, returning `none`
  exactly on invalid scalar values; the `.unwrap()` in `rows` is modelled by
  `Option.getD` with a junk character (the theorems show the `none` branch is
  unreachable).
-/

namespace Drawille

/-- `static PIXEL_MAP: [[int, ..2], ..4]` from the source. -/
def PIXEL_MAP : List (List ℕ) :=
  [[0x01, 0x08],
   [0x02, 0x10],
   [0x04, 0x20],
   [0x40, 0x80]]

/-- `PIXEL_MAP[y % 4][x % 2]`, the dot bit of pixel `(x, y)` inside its cell. -/
def pixel (y x : ℕ) : ℕ := (PIXEL_MAP.getD (y % 4) []).getD (x % 2) 0

/-- 64-bit two's-complement bitwise complement `!b`, on bit patterns. -/
def not64 (b : ℕ) : ℕ := 2 ^ 64 - 1 - b

/-- The model of the `chars: HashMap<(uint, uint), int>` field. -/
abbrev CharMap := List ((ℕ × ℕ) × ℕ)

/-- `HashMap::find`: the stored mask of a cell key, if present. -/
def findCell : CharMap → (ℕ × ℕ) → Option ℕ
  | [], _ => none
  | (k, v) :: t, k' => if k = k' then some v else findCell t k'

/-- `*chars.find_or_insert(k, 0) ⊕= …`: insert `k ↦ f 0` if `k` is absent,
otherwise replace the stored mask `v` by `f v`. -/
def modifyCell (f : ℕ → ℕ) : CharMap → (ℕ × ℕ) → CharMap
  | [], k => [(k, f 0)]
  | (k', v) :: t, k => if k' = k then (k', f v) :: t else (k', v) :: modifyCell f t k

structure Canvas where
  chars : CharMap
  width : ℕ
  height : ℕ
  deriving DecidableEq, Repr

/-- `Canvas::new(width, height)`: declared cell dimensions are the pixel
dimensions divided by 2 and 4 (floor division). -/
def Canvas.new (width height : ℕ) : Canvas :=
  { chars := [], width := width / 2, height := height / 4 }

/-- `Canvas::clear`: `self.chars.clear()`. -/
def Canvas.clear (c : Canvas) : Canvas := { c with chars := [] }

/-- `Canvas::set`: key `(row, col) = (x / 2, y / 4)`, OR in the dot bit. -/
def Canvas.set (c : Canvas) (x y : ℕ) : Canvas :=
  { c with chars := modifyCell (fun m => m ||| pixel y x) c.chars (x / 2, y / 4) }

/-- `Canvas::unset`: AND with the complement of the dot bit. -/
def Canvas.unset (c : Canvas) (x y : ℕ) : Canvas :=
  { c with chars := modifyCell (fun m => m &&& not64 (pixel y x)) c.chars (x / 2, y / 4) }

/-- `Canvas::toggle`: XOR with the dot bit. -/
def Canvas.toggle (c : Canvas) (x y : ℕ) : Canvas :=
  { c with chars := modifyCell (fun m => m ^^^ pixel y x) c.chars (x / 2, y / 4) }

/-- `Canvas::get`.  The source binds `let (col, row) = (x / 2, y / 4)` and then
looks up `(row, col)`, i.e. the key `(y / 4, x / 2)` — swapped relative to the
`(x / 2, y / 4)` key written by `set`/`unset`/`toggle`.  Embedded faithfully. -/
def Canvas.get (c : Canvas) (x y : ℕ) : Bool :=
  match findCell c.chars (y / 4, x / 2) with
  | none => false
  | some m => m &&& pixel y x != 0

/-- `chars.keys().map(|&(x, _)| x).max().unwrap_or(0)`. -/
def keysMaxX (l : CharMap) : ℕ := l.foldr (fun kv acc => max kv.1.1 acc) 0

/-- `chars.keys().map(|&(_, y)| y).max().unwrap_or(0)`. -/
def keysMaxY (l : CharMap) : ℕ := l.foldr (fun kv acc => max kv.1.2 acc) 0

/-- `std::char::from_u32`: `some` exactly on valid Unicode scalar values. -/
def charFromU32 (n : ℕ) : Option Char :=
  if h : n.isValidChar then some (Char.ofNatAux n h) else none

/-- `Canvas::rows`.  The local names `maxrow` / `maxcol` are the source's own
(despite `maxrow` bounding the column index and `maxcol` the row index).
`(0x2800 + char) as u32` is the addition reduced modulo `2^32`, and the
`.unwrap()` of `from_u32` is modelled by `getD` with a junk character. -/
def Canvas.rows (c : Canvas) : List String :=
  let maxrow := max c.width (keysMaxX c.chars)
  let maxcol := max c.height (keysMaxY c.chars)
  (List.range (maxcol + 1)).map fun y =>
    String.mk ((List.range (maxrow + 1)).map fun x =>
      let ch := (findCell c.chars (x, y)).getD 0
      if ch = 0 then ' ' else (charFromU32 ((0x2800 + ch) % 2 ^ 32)).getD (Char.ofNat 0))

/-- `Canvas::frame`: the rows joined by `"\n"`, no trailing separator. -/
def Canvas.frame (c : Canvas) : String := String.intercalate "\n" c.rows

/-- Wrapping 64-bit `uint` addition. -/
def wadd (a b : ℕ) : ℕ := (a + b) % 2 ^ 64

/-- Wrapping 64-bit `uint` multiplication. -/
def wmul (a b : ℕ) : ℕ := a * b % 2 ^ 64

/-- `Canvas::line_vec`.  All quantities in the source are `uint` and the
arithmetic wraps (pre-1.0 Rust has no overflow checks): the direction
factors are `1` and `-1 = 2^64 - 1`, the loop bound is the wrapped `r + 1`,
and `y += (i * ydiff) / r * ydir` is a wrapped product, a `uint` division of
that wrapped product by `r`, a wrapped multiplication by the direction
factor, and a wrapped addition, in that order (likewise for `x`).  The
`xdiff`/`ydiff` subtractions of `cmp::max - cmp::min` never underflow. -/
def Canvas.line_vec (_c : Canvas) (x1 y1 x2 y2 : ℕ) : List (ℕ × ℕ) :=
  let xdiff := max x1 x2 - min x1 x2
  let ydiff := max y1 y2 - min y1 y2
  let xdir := if x1 ≤ x2 then 1 else 2 ^ 64 - 1
  let ydir := if y1 ≤ y2 then 1 else 2 ^ 64 - 1
  let r := max xdiff ydiff
  (List.range (wadd r 1)).map fun i =>
    let y := if ydiff ≠ 0 then wadd y1 (wmul (wmul i ydiff / r) ydir) else y1
    let x := if xdiff ≠ 0 then wadd x1 (wmul (wmul i xdiff / r) xdir) else x1
    (x, y)

/-- `Canvas::line`: `set` every coordinate of `line_vec`, in order. -/
def Canvas.line (c : Canvas) (x1 y1 x2 y2 : ℕ) : Canvas :=
  (c.line_vec x1 y1 x2 y2).foldl (fun acc p => acc.set p.1 p.2) c

/-- The mutating canvas operations, for stating the all-reachable-states
invariant of the spec. -/
inductive Op where
  | set (x y : ℕ)
  | unset (x y : ℕ)
  | toggle (x y : ℕ)
  | clear
  | line (x1 y1 x2 y2 : ℕ)
  deriving DecidableEq, Repr

def Canvas.applyOp (c : Canvas) : Op → Canvas
  | .set x y => c.set x y
  | .unset x y => c.unset x y
  | .toggle x y => c.toggle x y
  | .clear => c.clear
  | .line x1 y1 x2 y2 => c.line x1 y1 x2 y2

def Canvas.applyOps (c : Canvas) (ops : List Op) : Canvas :=
  ops.foldl Canvas.applyOp c

/-- `f32::round` (round half away from zero), on the ℚ model of `f32`. -/
def roundf (q : ℚ) : ℤ := if 0 ≤ q then ⌊q + 1 / 2⌋ else ⌈q - 1 / 2⌉

structure Turtle where
  x : ℚ
  y : ℚ
  brush : Bool
  rotation : ℚ
  cvs : Canvas
  deriving DecidableEq, Repr

/-- `Turtle::new(x, y)`: canvas `Canvas::new(0, 0)`, pen down, heading 0. -/
def Turtle.new (x y : ℚ) : Turtle :=
  { cvs := Canvas.new 0 0, x := x, y := y, brush := true, rotation := 0 }

/-- `Turtle::width`: assigns the argument directly to `cvs.width`. -/
def Turtle.width (t : Turtle) (width : ℕ) : Turtle :=
  { t with cvs := { t.cvs with width := width } }

/-- `Turtle::height`: assigns the argument directly to `cvs.height`. -/
def Turtle.height (t : Turtle) (height : ℕ) : Turtle :=
  { t with cvs := { t.cvs with height := height } }

def Turtle.up (t : Turtle) : Turtle := { t with brush := false }

def Turtle.down (t : Turtle) : Turtle := { t with brush := true }

def Turtle.toggle (t : Turtle) : Turtle := { t with brush := !t.brush }

/-- `Turtle::move`: if the pen is down, draw a line between the rounded,
0-clamped old and new positions (`cmp::max(0, v.round() as int) as uint`);
in every case store the exact target as the new position. -/
def Turtle.move (t : Turtle) (x y : ℚ) : Turtle :=
  let cvs := if t.brush then
      t.cvs.line (max 0 (roundf t.x)).toNat (max 0 (roundf t.y)).toNat
        (max 0 (roundf x)).toNat (max 0 (roundf y)).toNat
    else t.cvs
  { t with x := x, y := y, cvs := cvs }

/-- `Turtle::frame`: delegates to the owned canvas. -/
def Turtle.frame (t : Turtle) : String := t.cvs.frame

/-- The i-th point of the line as the specification words it: for
`dx = |x1-x2|`, `dy = |y1-y2|`, `r = max dx dy`, and direction signs
`xdir`/`ydir` (+1 if target ≥ source), the point
`(x1 + trunc(i*dx/r)*xdir, y1 + trunc(i*dy/r)*ydir)`, each axis term applied
only when that axis difference is nonzero.  Stated over ℤ with signed
direction factors, to be compared with `Canvas.line_vec`. -/
def lineVecSpecPoint (x1 y1 x2 y2 i : ℕ) : ℕ × ℕ :=
  let dx := ((x1 : ℤ) - x2).natAbs
  let dy := ((y1 : ℤ) - y2).natAbs
  let r := max dx dy
  let xdir : ℤ := if x1 ≤ x2 then 1 else -1
  let ydir : ℤ := if y1 ≤ y2 then 1 else -1
  (((x1 : ℤ) + (if dx ≠ 0 then ((i * dx / r : ℕ) : ℤ) * xdir else 0)).toNat,
   ((y1 : ℤ) + (if dy ≠ 0 then ((i * dy / r : ℕ) : ℤ) * ydir else 0)).toNat)

/-- All masks stored in a cell map are at most `0xFF`. -/
def MaskInv (l : CharMap) : Prop := ∀ k m, findCell l k = some m → m ≤ 255

lemma pixel_bounds (y x : ℕ) : 1 ≤ pixel y x ∧ pixel y x ≤ 255 := by
  have h4 : y % 4 = 0 ∨ y % 4 = 1 ∨ y % 4 = 2 ∨ y % 4 = 3 := by omega
  have h2 : x % 2 = 0 ∨ x % 2 = 1 := by omega
  rcases h4 with h | h | h | h <;> rcases h2 with h' | h' <;>
    simp [pixel, PIXEL_MAP, h, h', List.getD]

lemma findCell_modifyCell (f : ℕ → ℕ) (l : CharMap) (k k' : ℕ × ℕ) :
    findCell (modifyCell f l k) k' =
      if k = k' then some (f ((findCell l k).getD 0)) else findCell l k' := by
  induction l with
  | nil => by_cases h : k = k' <;> simp [modifyCell, findCell, h]
  | cons hd t ih =>
    obtain ⟨k₀, v⟩ := hd
    by_cases h₀ : k₀ = k
    · subst h₀
      by_cases h' : k₀ = k' <;> simp [modifyCell, findCell, h']
    · by_cases h' : k₀ = k'
      · subst h'
        have hk : ¬k = k₀ := fun hh => h₀ hh.symm
        simp [modifyCell, findCell, h₀, hk]
      · simp [modifyCell, findCell, h₀, h', ih]

lemma MaskInv_modify {f : ℕ → ℕ} (hf : ∀ m, m ≤ 255 → f m ≤ 255)
    {l : CharMap} (h : MaskInv l) (k : ℕ × ℕ) : MaskInv (modifyCell f l k) := by
  intro k' m hm
  rw [findCell_modifyCell] at hm
  split at hm
  · have hm' : f ((findCell l k).getD 0) = m := by injection hm
    subst hm'
    apply hf
    cases hfind : findCell l k with
    | none => simp [hfind]
    | some v => simpa [hfind] using h k v hfind
  · exact h _ _ hm

lemma MaskInv_set {c : Canvas} (h : MaskInv c.chars) (x y : ℕ) :
    MaskInv (c.set x y).chars := by
  refine MaskInv_modify (fun m hm => ?_) h _
  have hp := (pixel_bounds y x).2
  have : m ||| pixel y x < 2 ^ 8 := Nat.or_lt_two_pow (by omega) (by omega)
  omega

lemma MaskInv_unset {c : Canvas} (h : MaskInv c.chars) (x y : ℕ) :
    MaskInv (c.unset x y).chars := by
  refine MaskInv_modify (fun m hm => ?_) h _
  exact le_trans Nat.and_le_left hm

lemma MaskInv_toggle {c : Canvas} (h : MaskInv c.chars) (x y : ℕ) :
    MaskInv (c.toggle x y).chars := by
  refine MaskInv_modify (fun m hm => ?_) h _
  have hp := (pixel_bounds y x).2
  have : m ^^^ pixel y x < 2 ^ 8 := Nat.xor_lt_two_pow (by omega) (by omega)
  omega

lemma MaskInv_foldl_set (ps : List (ℕ × ℕ)) :
    ∀ c : Canvas, MaskInv c.chars →
      MaskInv ((ps.foldl (fun acc p => acc.set p.1 p.2) c).chars) := by
  induction ps with
  | nil => exact fun c h => h
  | cons p t ih => exact fun c h => ih _ (MaskInv_set h _ _)

lemma MaskInv_line {c : Canvas} (h : MaskInv c.chars) (x1 y1 x2 y2 : ℕ) :
    MaskInv (c.line x1 y1 x2 y2).chars :=
  MaskInv_foldl_set _ c h

lemma MaskInv_nil : MaskInv [] := by
  intro k m hm
  simp [findCell] at hm

lemma MaskInv_applyOp {c : Canvas} (h : MaskInv c.chars) (op : Op) :
    MaskInv (c.applyOp op).chars := by
  cases op with
  | set x y => exact MaskInv_set h x y
  | unset x y => exact MaskInv_unset h x y
  | toggle x y => exact MaskInv_toggle h x y
  | clear => exact MaskInv_nil
  | line x1 y1 x2 y2 => exact MaskInv_line h x1 y1 x2 y2

lemma MaskInv_applyOps (ops : List Op) :
    ∀ {c : Canvas}, MaskInv c.chars → MaskInv (c.applyOps ops).chars := by
  induction ops with
  | nil => exact fun h => h
  | cons op t ih =>
    intro c h
    exact ih (MaskInv_applyOp h op)

lemma toNat_ofNatAux (n : ℕ) (h : n.isValidChar) : (Char.ofNatAux n h).toNat = n := rfl

/-- C1: the claim says `set(x,y)` followed by `get(x,y)` returns `true` for
every pixel and every canvas state.  The code violates it: `get` looks up the
cell key `(y/4, x/2)`, swapped relative to the `(x/2, y/4)` key that `set`
writes, so on the empty canvas `set(2,0); get(2,0)` returns `false` — while
`get(0,4)`, whose swapped key is the cell that `set(2,0)` wrote, returns
`true`. -/
theorem C1_set_get_swapped_key :
    (((Canvas.new 0 0).set 2 0).get 2 0 = false) ∧
      (((Canvas.new 0 0).set 2 0).get 0 4 = true) := by
  decide

/-- C2 counterexample: `Turtle::width(2)` stores `2` in the canvas's declared
cell width, not `2 / 2 = 1` as the claim says. -/
theorem C2_counterexample :
    ((Turtle.new 0 0).width 2).cvs.width ≠ 2 / 2 := by
  decide

/-- C2 (amended): `Turtle::width`/`Turtle::height` assign their argument
directly to the owned canvas's declared cell width/height, with no `/2` or
`/4` conversion; the pixel-to-cell division happens only in `Canvas::new`. -/
theorem C2_turtle_dims (t : Turtle) (a b : ℕ) :
    (t.width a).cvs.width = a ∧ (t.width a).cvs.height = t.cvs.height ∧
      (t.height b).cvs.height = b ∧ (t.height b).cvs.width = t.cvs.width ∧
      (Canvas.new a b).width = a / 2 ∧ (Canvas.new a b).height = b / 4 :=
  ⟨rfl, rfl, rfl, rfl, rfl, rfl⟩

/-- C3 counterexample: after `line(0,0,1,3)` on `Canvas::new(2,4)` the cell
mask is not `0x01|0x02|0x04|0x40 = 0x47`: the rightmost pixel column does not
stay unset (the line ends at pixel `(1,3)`, bit `0x80`). -/
theorem C3_counterexample :
    findCell ((Canvas.new 2 4).line 0 0 1 3).chars (0, 0) ≠
      some (0x01 ||| 0x02 ||| 0x04 ||| 0x40) := by
  decide

/-- C3 (amended): on `Canvas::new(2,4)`, `line(0,0,1,3)` rasterizes to the
pixels `(0,0),(0,1),(0,2),(1,3)`, so cell `(0,0)` gets mask
`0x01|0x02|0x04|0x80 = 0x87` and `frame()` renders that mask as U+2887 in the
top-left of a 2×2 character grid (rows run `0..max(height,·)` and columns
`0..max(width,·)` inclusive, so the declared cell size (1,1) yields a 2×2
grid, not a single character). -/
theorem C3_line_scenario :
    (Canvas.new 2 4).line_vec 0 0 1 3 = [(0, 0), (0, 1), (0, 2), (1, 3)] ∧
      findCell ((Canvas.new 2 4).line 0 0 1 3).chars (0, 0) =
        some (0x01 ||| 0x02 ||| 0x04 ||| 0x80) ∧
      ((Canvas.new 2 4).line 0 0 1 3).frame = "⢇ \n  " := by
  decide

/-- C4 counterexample: on `Canvas::new(2,4)`, `set(0,0); frame()` is not the
single-character string "⠁". -/
theorem C4_counterexample :
    ((Canvas.new 2 4).set 0 0).frame ≠ "⠁" := by
  decide

/-- C4 (amended): `Canvas::new(2,4)` has declared cell size (1,1), and
`set(0,0); frame()` returns "⠁ \n  ": a 2×2 grid whose top-left glyph is
U+2801 and whose other three glyphs are spaces, because `rows()` spans
`0..max(height, stored)` rows and `0..max(width, stored)` columns
inclusive. -/
theorem C4_frame_scenario :
    (Canvas.new 2 4).width = 1 ∧ (Canvas.new 2 4).height = 1 ∧
      ((Canvas.new 2 4).set 0 0).frame = "⠁ \n  " := by
  decide

/-- C7: if the brush is up, `Turtle::move` leaves the owned canvas (cell map
and declared dimensions) unchanged, and regardless of the pen state it stores
the exact unrounded, unclamped target as the new position. -/
theorem C7_move_pen_up (t : Turtle) (x y : ℚ) :
    (t.brush = false → (t.move x y).cvs = t.cvs) ∧
      (t.move x y).x = x ∧ (t.move x y).y = y := by
  refine ⟨fun h => ?_, rfl, rfl⟩
  simp [Turtle.move, h]

/-- C7 witness: concrete pen-up move. -/
theorem C7_witness :
    (((Turtle.new 1 2).up).move 5 7).cvs = ((Turtle.new 1 2).up).cvs ∧
      (((Turtle.new 1 2).up).move 5 7).x = 5 ∧
      (((Turtle.new 1 2).up).move 5 7).y = 7 :=
  ⟨(C7_move_pen_up ((Turtle.new 1 2).up) 5 7).1 rfl,
   (C7_move_pen_up ((Turtle.new 1 2).up) 5 7).2.1,
   (C7_move_pen_up ((Turtle.new 1 2).up) 5 7).2.2⟩

/-- C8: `clear()` empties the pixel store and keeps the declared dimensions,
and `rows()` on the cleared canvas is `height + 1` rows of `width + 1` space
characters each — dimensions driven solely by the declared width/height. -/
theorem C8_clear_rows (c : Canvas) :
    (c.clear).chars = [] ∧ (c.clear).width = c.width ∧
      (c.clear).height = c.height ∧
      (c.clear).rows =
        List.replicate (c.height + 1) (String.mk (List.replicate (c.width + 1) ' ')) := by
  refine ⟨rfl, rfl, rfl, ?_⟩
  have hrow : ∀ n : ℕ, (List.range n).map (fun _ : ℕ => ' ') = List.replicate n ' ' := by
    intro n
    induction n with
    | zero => rfl
    | succ k ih => simp [List.range_succ, ih, List.replicate_succ']
  have h : (c.clear).rows =
      (List.range (c.height + 1)).map
        (fun _ => String.mk ((List.range (c.width + 1)).map (fun _ => ' '))) := by
    simp [Canvas.rows, Canvas.clear, keysMaxX, keysMaxY, findCell]
  rw [h, hrow]
  have hrep : ∀ n : ℕ,
      (List.range n).map (fun _ : ℕ => String.mk (List.replicate (c.width + 1) ' ')) =
        List.replicate n (String.mk (List.replicate (c.width + 1) ' ')) := by
    intro n
    induction n with
    | zero => rfl
    | succ k ih => simp [List.range_succ, ih, List.replicate_succ']
  exact hrep _

/-- C9: `Turtle::new(x,y)` starts pen-down with heading `0.0`, at position
`(x, y)`, owning `Canvas::new(0, 0)`: declared cell width and height `0` and
an empty pixel store. -/
theorem C9_turtle_new (x y : ℚ) :
    (Turtle.new x y).brush = true ∧ (Turtle.new x y).rotation = 0 ∧
      (Turtle.new x y).x = x ∧ (Turtle.new x y).y = y ∧
      (Turtle.new x y).cvs = Canvas.new 0 0 ∧
      (Turtle.new x y).cvs.width = 0 ∧ (Turtle.new x y).cvs.height = 0 ∧
      (Turtle.new x y).cvs.chars = [] :=
  ⟨rfl, rfl, rfl, rfl, rfl, rfl, rfl, rfl⟩

lemma getD_range_map {α : Type} (n i : ℕ) (f : ℕ → α) (d : α) (h : i < n) :
    ((List.range n).map f).getD i d = f i := by
  rw [List.getD_eq_getElem _ _ (by simpa using h)]
  simp

lemma nat_div_le_of_le_mul {px r d : ℕ} (h : px ≤ r * d) : px / r ≤ d := by
  rcases Nat.eq_zero_or_pos r with h0 | h0
  · simp [h0]
  · calc px / r ≤ r * d / r := Nat.div_le_div_right h
      _ = d := Nat.mul_div_cancel_left d h0

/-- C5 counterexample: the endpoints `(0,0)` and `(2^64 - 1, 0)` are valid
`uint` pixel coordinates, but there `r = uint::MAX`, the loop bound `r + 1`
wraps to `0`, and `line_vec` returns the empty vector — length `0`, not
`max(|x1-x2|,|y1-y2|) + 1 = 2^64` as the claim states for every pair of
endpoints. -/
theorem C5_counterexample :
    ((Canvas.new 0 0).line_vec 0 0 (2 ^ 64 - 1) 0).length ≠
      max ((0 : ℤ) - ((2 ^ 64 - 1 : ℕ) : ℤ)).natAbs ((0 : ℤ) - ((0 : ℕ) : ℤ)).natAbs + 1 := by
  decide

/-- C5 (amended): for endpoints that are `uint` values (below `2^64`) whose
axis differences satisfy `max(|x1-x2|,|y1-y2|) < 2^32` — so neither the loop
bound `r + 1` nor any product `i * diff` wraps — `line_vec(x1,y1,x2,y2)` has
length `max(|x1-x2|,|y1-y2|) + 1` and its i-th element (for i below the
length) is `(x1 + trunc(i*dx/r)*xdir, y1 + trunc(i*dy/r)*ydir)`, each axis
term applied only when that axis difference is nonzero (so the division by
`r` is never a division by zero); and unconditionally
`line_vec(x,y,x,y) = [(x,y)]`. -/
theorem C5_line_vec_spec (c : Canvas) (x1 y1 x2 y2 : ℕ)
    (hx1 : x1 < 2 ^ 64) (hy1 : y1 < 2 ^ 64) (hx2 : x2 < 2 ^ 64) (hy2 : y2 < 2 ^ 64)
    (hr : max ((x1 : ℤ) - x2).natAbs ((y1 : ℤ) - y2).natAbs < 2 ^ 32) :
    (c.line_vec x1 y1 x2 y2).length =
        max ((x1 : ℤ) - x2).natAbs ((y1 : ℤ) - y2).natAbs + 1 ∧
      (∀ i, i < (c.line_vec x1 y1 x2 y2).length →
        (c.line_vec x1 y1 x2 y2).getD i (0, 0) = lineVecSpecPoint x1 y1 x2 y2 i) ∧
      c.line_vec x1 y1 x1 y1 = [(x1, y1)] := by
  have hdx : ((x1 : ℤ) - x2).natAbs = max x1 x2 - min x1 x2 := by omega
  have hdy : ((y1 : ℤ) - y2).natAbs = max y1 y2 - min y1 y2 := by omega
  have hrw : max (max x1 x2 - min x1 x2) (max y1 y2 - min y1 y2) < 2 ^ 32 := by omega
  refine ⟨?_, ?_, ?_⟩
  · simp only [Canvas.line_vec, List.length_map, List.length_range, wadd]
    omega
  · intro i hi
    simp only [Canvas.line_vec, List.length_map, List.length_range] at hi
    simp only [Canvas.line_vec]
    rw [getD_range_map _ _ _ _ hi]
    simp only [wadd] at hi
    have hiR : i ≤ max (max x1 x2 - min x1 x2) (max y1 y2 - min y1 y2) := by omega
    have hrr : max (max x1 x2 - min x1 x2) (max y1 y2 - min y1 y2) *
        max (max x1 x2 - min x1 x2) (max y1 y2 - min y1 y2) < 2 ^ 64 := by
      have h1 : max (max x1 x2 - min x1 x2) (max y1 y2 - min y1 y2) ≤ 2 ^ 32 - 1 := by
        omega
      exact lt_of_le_of_lt (Nat.mul_le_mul h1 h1) (by norm_num)
    have hix : i * (max x1 x2 - min x1 x2) < 2 ^ 64 :=
      lt_of_le_of_lt (Nat.mul_le_mul hiR (Nat.le_max_left _ _)) hrr
    have hiy : i * (max y1 y2 - min y1 y2) < 2 ^ 64 :=
      lt_of_le_of_lt (Nat.mul_le_mul hiR (Nat.le_max_right _ _)) hrr
    have hqx : i * (max x1 x2 - min x1 x2) /
        max (max x1 x2 - min x1 x2) (max y1 y2 - min y1 y2) ≤ max x1 x2 - min x1 x2 :=
      nat_div_le_of_le_mul (Nat.mul_le_mul_right _ hiR)
    have hqy : i * (max y1 y2 - min y1 y2) /
        max (max x1 x2 - min x1 x2) (max y1 y2 - min y1 y2) ≤ max y1 y2 - min y1 y2 :=
      nat_div_le_of_le_mul (Nat.mul_le_mul_right _ hiR)
    simp only [lineVecSpecPoint, wmul, wadd]
    rw [hdx, hdy, Nat.mod_eq_of_lt hix, Nat.mod_eq_of_lt hiy]
    set qx := i * (max x1 x2 - min x1 x2) /
        max (max x1 x2 - min x1 x2) (max y1 y2 - min y1 y2) with hqx_def
    set qy := i * (max y1 y2 - min y1 y2) /
        max (max x1 x2 - min x1 x2) (max y1 y2 - min y1 y2) with hqy_def
    simp only [Prod.mk.injEq]
    constructor <;> split_ifs <;> omega
  · have h1 : wadd 0 1 = 1 := by
      simp only [wadd]
      omega
    simp [Canvas.line_vec, h1, List.range_succ]

/-- C5 witness: the last point of `line_vec(0,0,1,3)` matches the spec
formula. -/
theorem C5_witness :
    ((Canvas.new 0 0).line_vec 0 0 1 3).getD 3 (0, 0) = lineVecSpecPoint 0 0 1 3 3 :=
  (C5_line_vec_spec (Canvas.new 0 0) 0 0 1 3 (by decide) (by decide) (by decide)
    (by decide) (by decide)).2.1 3 (by decide)

/-- C6: from a newly constructed canvas, any sequence of `set`, `unset`,
`toggle`, `clear`, `line` operations keeps every stored cell mask in
`[0, 255]` (the lower bound is inherent in the ℕ pattern model), so for every
nonzero stored mask the conversion of `0x2800 + mask` performed by `rows()`
is unaffected by the `as u32` truncation and succeeds, yielding a character
in the Braille Patterns block. -/
theorem C6_mask_invariant (w h : ℕ) (ops : List Op) (k : ℕ × ℕ) (m : ℕ)
    (hm : findCell ((Canvas.new w h).applyOps ops).chars k = some m) :
    m ≤ 255 ∧ (m ≠ 0 →
      (0x2800 + m) % 2 ^ 32 = 0x2800 + m ∧
      ∃ ch : Char, charFromU32 (0x2800 + m) = some ch ∧
        ch.toNat = 0x2800 + m ∧ 0x2801 ≤ ch.toNat ∧ ch.toNat ≤ 0x28FF) := by
  have hb : m ≤ 255 := MaskInv_applyOps ops (c := Canvas.new w h) MaskInv_nil k m hm
  refine ⟨hb, fun hm0 => ⟨by omega, ?_⟩⟩
  have hv : (0x2800 + m).isValidChar := Or.inl (by omega)
  refine ⟨Char.ofNatAux (0x2800 + m) hv, ?_, ?_, ?_, ?_⟩
  · simp [charFromU32, hv]
  · exact toNat_ofNatAux _ hv
  · rw [toNat_ofNatAux]; omega
  · rw [toNat_ofNatAux]; omega

/-- C6 witness: after `set(0,0)` the stored mask `1` is in range and
`0x2801` converts to the Braille character. -/
theorem C6_witness :
    (1 : ℕ) ≤ 255 ∧ ((1 : ℕ) ≠ 0 →
      (0x2800 + 1) % 2 ^ 32 = 0x2800 + 1 ∧
      ∃ ch : Char, charFromU32 (0x2800 + 1) = some ch ∧
        ch.toNat = 0x2800 + 1 ∧ 0x2801 ≤ ch.toNat ∧ ch.toNat ≤ 0x28FF) :=
  C6_mask_invariant 0 0 [Op.set 0 0] (0, 0) 1 (by decide)

/-- C10: `unset` and `toggle` go through `find_or_insert(k, 0)`, so on an
absent cell `unset` leaves a fresh entry with mask `0` and `toggle` a fresh
entry holding exactly the dot bit; `get` never inserts (it is a pure
function of the canvas in this model).  Consequently `unset(10,10)` on the
empty `Canvas::new(0,0)` — whose `rows()` is the single one-space row —
enlarges `rows()` to a 3-row × 6-column grid of spaces. -/
theorem C10_lazy_insertion (c : Canvas) (x y : ℕ)
    (h : findCell c.chars (x / 2, y / 4) = none) :
    findCell (c.unset x y).chars (x / 2, y / 4) = some 0 ∧
      findCell (c.toggle x y).chars (x / 2, y / 4) = some (pixel y x) ∧
      (Canvas.new 0 0).rows = [" "] ∧
      ((Canvas.new 0 0).unset 10 10).rows =
        List.replicate 3 (String.mk (List.replicate 6 ' ')) := by
  refine ⟨?_, ?_, by decide, by decide⟩
  · simp [Canvas.unset, findCell_modifyCell, h, Nat.zero_and]
  · simp [Canvas.toggle, findCell_modifyCell, h, Nat.zero_xor]

/-- C10 witness: the concrete absent-cell case at pixel `(10, 10)` of the
empty canvas. -/
theorem C10_witness :
    findCell ((Canvas.new 0 0).unset 10 10).chars (5, 2) = some 0 ∧
      findCell ((Canvas.new 0 0).toggle 10 10).chars (5, 2) = some (pixel 10 10) ∧
      (Canvas.new 0 0).rows = [" "] ∧
      ((Canvas.new 0 0).unset 10 10).rows =
        List.replicate 3 (String.mk (List.replicate 6 ' ')) :=
  C10_lazy_insertion (Canvas.new 0 0) 10 10 rfl

end Drawille
